import Mathlib

/-!
Verification of the foundry autopatch pipeline.

This file shallowly embeds the pipeline code of the repository:

* `foundry/autopatch_codeaware.py` — `parse_report`, `project_uses`,
  `apply_patch` (the direct, integrity-gated patch pipeline);
* `foundry/parser.py` — `parse_tenable` and the `TenableVulnerability`
  record validation;
* `foundry/resolver.py` — `resolve`;
* `foundry/planner.py` — `build_plan`;
* `foundry/pr_creator.py` — `create_pr`;
* `foundry/main.py` — `main`, the orchestrated pipeline.

I/O-dependent behaviour (file contents, directory listings, process exit
statuses, git operations) is made explicit: file-system facts and command
exit codes are passed as oracles, and the stateful parts are modelled as
pure functions that additionally return the trace of externally visible
events (commands executed, commits recorded, digest comparisons made).
Strings are Lean `String`s; where Python performs character-level
operations (`str.split`, `str.replace`, `str.lower`, substring tests) the
model works on the underlying `List Char`, mirroring Python semantics.
-/

namespace Foundry

/-- One entry of an `AGENT.yaml` `steps` list: `{name: …, shell: …}`. -/
structure Step where
  name : String
  shell : String
deriving DecidableEq

/-- One entry of an `AGENT.yaml` `validate` list: `{shell: …}`. -/
structure Check where
  shell : String
deriving DecidableEq

/-- The content of an `AGENT.yaml` patch specification, as consumed by
`apply_patch`: the declared checksum string, the ordered remediation
steps, and the validation commands. -/
structure AgentSpec where
  checksum : List Char
  steps : List Step
  validate : List Check
deriving DecidableEq

/-- Python `str.split(sep)` on the characters of a string: splits at every
occurrence of the separator, keeping empty fields (`"".split(":") == [""]`,
`"a:".split(":") == ["a", ""]`).  The accumulator holds the current field
in reverse. -/
def pySplitAux (sep : Char) : List Char → List Char → List (List Char)
  | [], acc => [acc.reverse]
  | c :: cs, acc =>
      if c = sep then acc.reverse :: pySplitAux sep cs []
      else pySplitAux sep cs (c :: acc)

/-- Python `s.split(sep)`. -/
def pySplit (sep : Char) (s : List Char) : List (List Char) :=
  pySplitAux sep s []

/-- `spec["checksum"].split(":")[1]` from `apply_patch`.  `none` models the
uncaught `IndexError` raised when the declared checksum contains no `':'`
(the split yields a single field and index 1 is out of range). -/
def checksumField (declared : List Char) : Option (List Char) :=
  (pySplit ':' declared)[1]?

/-- The text of a colon-separated string up to (excluding) the next `':'`:
the first field `str.split(":")` would produce. -/
def firstField (sep : Char) : List Char → List Char
  | [] => []
  | c :: cs => if c = sep then [] else c :: firstField sep cs

/-- The literal placeholder `"{{ playbook_dir }}"` appearing in step
command templates. -/
def placeholder : String := "\x7b\x7b playbook_dir \x7d\x7d"

/-- Python `str.replace(pattern, repl)`: replaces every non-overlapping
occurrence, scanning left to right.  Structural recursion on a fuel
argument (instantiated with the length of the subject string, which
bounds the number of scan positions). -/
def substAux (pattern repl : List Char) : Nat → List Char → List Char
  | _, [] => []
  | 0, s => s
  | fuel + 1, c :: cs =>
      if pattern.isPrefixOf (c :: cs) then
        repl ++ substAux pattern repl fuel ((c :: cs).drop pattern.length)
      else
        c :: substAux pattern repl fuel cs

/-- `step["shell"].replace("{{ playbook_dir }}", str(pkg_folder))` — the
directory-placeholder substitution applied to a step command before it is
executed. -/
def substDir (pkgFolder : String) (cmd : String) : String :=
  String.mk (substAux placeholder.toList pkgFolder.toList cmd.toList.length cmd.toList)

/-- Externally visible events of a pipeline run, in order of occurrence. -/
inductive Event where
  /-- The integrity comparison of `apply_patch`: declared hex vs computed
  sha256 hex of the replacement jar. -/
  | verifyEvt (declared computed : List Char)
  /-- A remediation step command handed to `subprocess.run`. -/
  | stepRun (cmd : String)
  /-- A validation command handed to `subprocess.run`. -/
  | valRun (cmd : String)
  /-- A git commit recorded by `create_pr` on the named branch. -/
  | commitEvt (branch : String)
deriving DecidableEq

/-- Whether an event is the integrity comparison. -/
def isVerifyEvt : Event → Bool
  | .verifyEvt _ _ => true
  | _ => false

/-- Whether an event is a git commit. -/
def isCommitEvt : Event → Bool
  | .commitEvt _ => true
  | _ => false

/-- The step commands executed in a trace, in order. -/
def stepCmdsOf : List Event → List String
  | [] => []
  | .stepRun c :: tr => c :: stepCmdsOf tr
  | _ :: tr => stepCmdsOf tr

/-- The validation commands executed in a trace, in order. -/
def valCmdsOf : List Event → List String
  | [] => []
  | .valRun c :: tr => c :: valCmdsOf tr
  | _ :: tr => valCmdsOf tr

/-- Terminal outcome of one `apply_patch` invocation.  The `sys.exit`
calls of the source terminate the process; here they become distinct
outcome values. -/
inductive Outcome where
  /-- `print(f"OK: …")` — all steps and validations succeeded. -/
  | okDone
  /-- Uncaught `IndexError` from `spec["checksum"].split(":")[1]`. -/
  | indexError
  /-- `sys.exit(f"Checksum mismatch for {jar}")`. -/
  | checksumMismatch
  /-- `sys.exit(f"Step failed: {cmd}")`, carrying the failing command. -/
  | stepFailed (cmd : String)
  /-- `sys.exit("Validation failed")`. -/
  | validationFailed
deriving DecidableEq

/-- The step loop of `apply_patch`: substitute the placeholder, run the
command, abort at the first non-zero exit status.  Returns the commands
actually executed (in order) and the failing command, if any.  `exec`
gives each shell command's exit status. -/
def runSteps (exec : String → Int) (pkgFolder : String) : List Step → List String × Option String
  | [] => ([], none)
  | s :: rest =>
      let cmd := substDir pkgFolder s.shell
      if exec cmd = 0 then
        match runSteps exec pkgFolder rest with
        | (tr, res) => (cmd :: tr, res)
      else ([cmd], some cmd)

/-- The validation loop of `apply_patch`: each `check["shell"]` is run
verbatim (no placeholder substitution in the source), aborting at the
first non-zero exit status.  Returns the commands executed and whether
all succeeded. -/
def runChecks (exec : String → Int) : List Check → List String × Bool
  | [] => ([], true)
  | c :: rest =>
      if exec c.shell = 0 then
        match runChecks exec rest with
        | (tr, ok) => (c.shell :: tr, ok)
      else ([c.shell], false)

/-- `apply_patch(pkg, target_version)` as a trace semantics.  `jarDigest`
is the sha256 hex digest the `sha256` helper computes for the replacement
jar; `spec` is the loaded `AGENT.yaml`; `exec` gives each executed shell
command's exit status.  Returns the ordered trace of externally visible
events together with the outcome. -/
def apply_patch (exec : String → Int) (pkgFolder : String) (jarDigest : List Char)
    (spec : AgentSpec) : List Event × Outcome :=
  match checksumField spec.checksum with
  | none => ([], .indexError)
  | some declaredHex =>
      if jarDigest ≠ declaredHex then
        ([.verifyEvt declaredHex jarDigest], .checksumMismatch)
      else
        match runSteps exec pkgFolder spec.steps with
        | (stepTr, some cmd) =>
            (.verifyEvt declaredHex jarDigest :: stepTr.map .stepRun, .stepFailed cmd)
        | (stepTr, none) =>
            match runChecks exec spec.validate with
            | (valTr, true) =>
                (.verifyEvt declaredHex jarDigest :: stepTr.map .stepRun ++ valTr.map .valRun,
                 .okDone)
            | (valTr, false) =>
                (.verifyEvt declaredHex jarDigest :: stepTr.map .stepRun ++ valTr.map .valRun,
                 .validationFailed)

/-- Decidable equality for `Except`, so that concrete pipeline results can
be checked by `decide`. -/
instance {ε α : Type} [DecidableEq ε] [DecidableEq α] : DecidableEq (Except ε α) := fun a b =>
  match a, b with
  | .ok x, .ok y =>
      if h : x = y then .isTrue (by rw [h]) else .isFalse (by intro hc; cases hc; exact h rfl)
  | .error e, .error f =>
      if h : e = f then .isTrue (by rw [h]) else .isFalse (by intro hc; cases hc; exact h rfl)
  | .ok _, .error _ => .isFalse (by intro hc; cases hc)
  | .error _, .ok _ => .isFalse (by intro hc; cases hc)

/-! ### `foundry/parser.py` — ReportParser (orchestrated mode) -/

/-- A raw record of the Tenable report, as seen by pydantic validation:
each field is `some v` when the key is present with the right type and
`none` when it is missing (or not coercible), in which case
`TenableVulnerability(**item)` raises a `ValidationError`. -/
structure RawItem where
  pkg : Option String
  version : Option String
  hosts : Option (List String)
  cve : Option String
deriving DecidableEq

/-- The validated vulnerability record (`class TenableVulnerability`). -/
structure TenableVulnerability where
  pkg : String
  version : String
  hosts : List String
  cve : String
deriving DecidableEq

/-- The two exceptions `parse_tenable` can raise: `FileNotFoundError`
when the report path is not a file, and pydantic's `ValidationError` when
a record fails field validation. -/
inductive ParseError where
  | fileNotFound
  | validationError
deriving DecidableEq

/-- `TenableVulnerability(**item).model_dump()`: succeeds exactly when all
four required fields are present with the right types; the field values
themselves (including empty strings) are accepted unchanged. -/
def validateItem (i : RawItem) : Except ParseError TenableVulnerability :=
  match i.pkg, i.version, i.hosts, i.cve with
  | some p, some v, some h, some c => .ok ⟨p, v, h, c⟩
  | _, _, _, _ => .error .validationError

/-- The list comprehension of `parse_tenable` over
`data.get("vulnerabilities", [])`: validates records left to right,
raising at the first invalid one. -/
def parse_tenable : List RawItem → Except ParseError (List TenableVulnerability)
  | [] => .ok []
  | i :: is =>
      match validateItem i, parse_tenable is with
      | .ok v, .ok vs => .ok (v :: vs)
      | .error e, _ => .error e
      | .ok _, .error e => .error e

/-! ### `parse_report` of `foundry/autopatch_codeaware.py` -/

/-- A record of the report consumed by `autopatch_codeaware.parse_report`;
`severity` is `i.get("severity")` (`none` when the key is absent). -/
structure ReportItem where
  severity : Option String
  package : String
  current_version : String
  fixed_version : String
deriving DecidableEq

/-- `parse_report`: keep exactly the records whose severity is
`"critical"`.  An empty result is an ordinary value, not an error. -/
def parse_report (data : List ReportItem) : List ReportItem :=
  data.filter fun i => i.severity == some "critical"

/-! ### `project_uses` of `foundry/autopatch_codeaware.py` -/

/-- Python `pattern in name` — substring containment on strings. -/
def containsSub (pattern name : String) : Bool :=
  decide (pattern.toList <:+: name.toList)

/-- The scan loop of `project_uses` over the entry names produced by
`PROJ_DIR.rglob("*")` (every file and directory name under the project
tree, recursively): return `True` at the first name containing the
pattern, `False` after an exhausted scan. -/
def project_uses_go (pattern : String) : List String → Bool
  | [] => false
  | n :: rest => if containsSub pattern n then true else project_uses_go pattern rest

/-- `project_uses(pkg_name, bad_version)`: scans the project tree for an
entry name containing `f"{pkg_name}-{bad_version}"`. -/
def project_uses (pkg ver : String) (tree : List String) : Bool :=
  project_uses_go (pkg ++ "-" ++ ver) tree

/-- Number of tree entries the scan loop examines: it stops at the first
matching name (the `return True` inside the `for` loop). -/
def project_uses_examined (pattern : String) : List String → Nat
  | [] => 0
  | n :: rest =>
      if containsSub pattern n then 1 else 1 + project_uses_examined pattern rest

/-! ### `foundry/resolver.py` — PackageResolver -/

/-- `resolve(pkg, version)`: checks that the directory
`approved-packages/{pkg}-{version}` exists and returns it; the returned
value here is the directory key `"{pkg}-{version}"` (the `.name` of the
returned path, which is what downstream consumers derive file names
from).  `dirExists` is the file-system oracle for `Path.is_dir`. -/
def resolve (dirExists : String → Bool) (pkg ver : String) : Except String String :=
  let key := pkg ++ "-" ++ ver
  if dirExists ("approved-packages/" ++ key) then .ok key
  else .error ("Approved package not found for " ++ key)

/-! ### `foundry/planner.py` — RolloutPlanner -/

/-- One task dict built by `build_plan`: `{"name": …, "shell": …}`. -/
structure Task where
  name : String
  shell : String
deriving DecidableEq

/-- One phase dict of the playbook: `{"hosts": …, "serial": …, "tasks": …}`. -/
structure Phase where
  hosts : String
  serial : String
  tasks : List Task
deriving DecidableEq

/-- The `AGENT.yaml` content as read by `build_plan`: `steps?` is
`data.get("steps", [])` (`none` when the key is absent), and the
`validate` entries, which `build_plan` never reads. -/
structure AgentData where
  steps? : Option (List Step)
  validate : List Check
deriving DecidableEq

/-- The task list `build_plan` derives from the specification's steps. -/
def planTasks (data : AgentData) : List Task :=
  (data.steps?.getD []).map fun step => ⟨step.name, step.shell⟩

/-- `build_plan(agent_dir)`: a playbook of a canary phase (`serial: 10%`)
and a batch phase (`serial: 30%`), both carrying the same task list. -/
def build_plan (data : AgentData) : List Phase :=
  [⟨"all", "10%", planTasks data⟩, ⟨"all", "30%", planTasks data⟩]

/-! ### `foundry/pr_creator.py` — ChangeComposer -/

/-- Python `str.lower()` (per-character lowercasing). -/
def pyLower (s : String) : String :=
  String.mk (s.toList.map Char.toLower)

/-- Whether `p` is a prefix of `s` (on characters). -/
def strPrefixOf (p s : String) : Bool :=
  p.toList.isPrefixOf s.toList

/-- Whether `p` is a suffix of `s` (on characters). -/
def strSuffixOf (p s : String) : Bool :=
  p.toList.isSuffixOf s.toList

/-- The fixed glob `libs.glob('log4j*.jar')` of `create_pr`, as a
predicate on one file name: `log4j`, then any characters, then `.jar`
(the length bound makes prefix and suffix non-overlapping, so this is
exactly `∃ mid, name = "log4j" ++ mid ++ ".jar"`). -/
def log4jGlob (name : String) : Bool :=
  strPrefixOf "log4j" name && strSuffixOf ".jar" name && decide (9 ≤ name.toList.length)

/-- The observable effect of `create_pr(app_dir, approved_dir, cve)`:
the branch created and checked out, the jar files unlinked from
`app_dir/libs`, the replacement artifact file name copied in, and the
message of the single commit recorded. -/
structure PrResult where
  branch : String
  removed : List String
  copiedFile : String
  commitMsg : String
deriving DecidableEq

/-- `create_pr` as a pure function of the `libs` directory listing, the
approved package directory's name (`approved_dir.name`), and the
identifier.  The removal glob is the literal `'log4j*.jar'` of the
source, whatever the target package is. -/
def create_pr (libsFiles : List String) (approvedDirName : String) (cve : String) : PrResult :=
  { branch := "autopatch-" ++ pyLower cve
  , removed := libsFiles.filter log4jGlob
  , copiedFile := approvedDirName ++ ".jar"
  , commitMsg := "AUTO-PATCH: " ++ cve }

/-! ### `foundry/main.py` — Orchestrator (orchestrated mode) -/

/-- One line of `main`'s structured output: `{"cve": …, "plan": …,
"branch": …}`. -/
structure FindingOutput where
  cve : String
  plan : List Phase
  branch : String
deriving DecidableEq

/-- The per-finding loop of `main`.  `agentOf` gives the `AGENT.yaml`
content of a resolved package directory (by its key); `libs` is the
current listing of `vulnerable-app/libs`, which `create_pr` mutates
(matched jars removed, replacement copied in); `tr` accumulates the event
trace.  A `FileNotFoundError` from `resolve` is caught and `main`
immediately returns exit code `2`, abandoning the remaining findings
(modelled as `.error 2`).  `notify` (fire-and-forget, exceptions
swallowed) has no observable effect and is elided. -/
def mainLoop (dirExists : String → Bool) (agentOf : String → AgentData) :
    List TenableVulnerability → List String → List Event →
      Except Int (List FindingOutput) × List Event
  | [], _libs, tr => (.ok [], tr)
  | v :: rest, libs, tr =>
      match resolve dirExists v.pkg v.version with
      | .error _ => (.error 2, tr)
      | .ok pkgDir =>
          let plan := build_plan (agentOf pkgDir)
          let pr := create_pr libs pkgDir v.cve
          let libs2 := (libs.filter fun n => !log4jGlob n) ++ [pr.copiedFile]
          let tr2 := tr ++ [Event.commitEvt pr.branch]
          match mainLoop dirExists agentOf rest libs2 tr2 with
          | (.error c, tr3) => (.error c, tr3)
          | (.ok outs, tr3) => (.ok ({ cve := v.cve, plan := plan, branch := pr.branch } :: outs), tr3)

/-- The report file as `main` sees it: missing (``FileNotFoundError``) or
present with a (well-shaped) list of records under `"vulnerabilities"`. -/
inductive ReportInput where
  | missing
  | present (items : List RawItem)

/-- How the `main` process ends: `sys.exit(main())` with a return code,
or an unhandled exception (only `FileNotFoundError` is ever caught). -/
inductive MainResult where
  | exitCode (code : Int)
  | uncaught
deriving DecidableEq

/-- `main()` of `foundry/main.py`: parse the report (catching only
`FileNotFoundError`, exit code 2), exit 2 with the message
`"No vulnerabilities found"` on an empty record list, otherwise run the
per-finding loop and exit 0 on full success.  Returns the process result,
the stderr messages, and the event trace. -/
def mainRun (dirExists : String → Bool) (agentOf : String → AgentData)
    (libs : List String) : ReportInput → MainResult × List String × List Event
  | .missing => (.exitCode 2, ["Tenable file not found"], [])
  | .present items =>
      match parse_tenable items with
      | .error _ => (.uncaught, [], [])
      | .ok [] => (.exitCode 2, ["No vulnerabilities found"], [])
      | .ok (v :: vs) =>
          match mainLoop dirExists agentOf (v :: vs) libs [] with
          | (.error c, tr) => (.exitCode c, [], tr)
          | (.ok _outs, tr) => (.exitCode 0, [], tr)

/-! ### Helper lemmas -/

theorem pySplitAux_of_not_mem (sep : Char) (s : List Char) (h : sep ∉ s) :
    ∀ acc : List Char, pySplitAux sep s acc = [acc.reverse ++ s] := by
  induction s with
  | nil => intro acc; simp [pySplitAux]
  | cons c cs ih =>
      intro acc
      have hc : ¬c = sep := by rintro rfl; exact h (List.mem_cons_self _ _)
      have hcs : sep ∉ cs := fun hm => h (List.mem_cons_of_mem _ hm)
      simp [pySplitAux, hc, ih hcs]

theorem pySplitAux_append_sep (sep : Char) (algo : List Char) (h : sep ∉ algo) :
    ∀ (rest acc : List Char),
      pySplitAux sep (algo ++ sep :: rest) acc =
        (acc.reverse ++ algo) :: pySplitAux sep rest [] := by
  induction algo with
  | nil => intro rest acc; simp [pySplitAux]
  | cons a as ih =>
      intro rest acc
      have ha : ¬a = sep := by rintro rfl; exact h (List.mem_cons_self _ _)
      have has : sep ∉ as := fun hm => h (List.mem_cons_of_mem _ hm)
      simp [pySplitAux, ha, ih has]

theorem pySplitAux_head (sep : Char) :
    ∀ (s acc : List Char),
      ∃ tail, pySplitAux sep s acc = (acc.reverse ++ firstField sep s) :: tail := by
  intro s
  induction s with
  | nil => intro acc; exact ⟨[], by simp [pySplitAux, firstField]⟩
  | cons c cs ih =>
      intro acc
      by_cases hc : c = sep
      · exact ⟨pySplitAux sep cs [], by simp [pySplitAux, firstField, hc]⟩
      · obtain ⟨tail, ht⟩ := ih (c :: acc)
        exact ⟨tail, by simp [pySplitAux, hc, ht, firstField]⟩

theorem checksumField_no_colon (s : List Char) (h : (':' : Char) ∉ s) :
    checksumField s = none := by
  simp [checksumField, pySplit, pySplitAux_of_not_mem ':' s h]

theorem checksumField_split (algo rest : List Char) (h : (':' : Char) ∉ algo) :
    checksumField (algo ++ ':' :: rest) = some (firstField ':' rest) := by
  obtain ⟨tail, ht⟩ := pySplitAux_head ':' rest []
  simp [checksumField, pySplit, pySplitAux_append_sep ':' algo h, ht]

theorem firstField_of_not_mem (sep : Char) (s : List Char) (h : sep ∉ s) :
    firstField sep s = s := by
  induction s with
  | nil => rfl
  | cons c cs ih =>
      have hc : ¬c = sep := by rintro rfl; exact h (List.mem_cons_self _ _)
      have hcs : sep ∉ cs := fun hm => h (List.mem_cons_of_mem _ hm)
      simp [firstField, hc, ih hcs]

theorem runSteps_all_ok (exec : String → Int) (dir : String) :
    ∀ steps : List Step, (∀ p ∈ steps, exec (substDir dir p.shell) = 0) →
      runSteps exec dir steps = (steps.map fun p => substDir dir p.shell, none) := by
  intro steps
  induction steps with
  | nil => intro _; rfl
  | cons s rest ih =>
      intro h
      have hs := h s (List.mem_cons_self _ _)
      have hr := ih fun p hp => h p (List.mem_cons_of_mem _ hp)
      simp [runSteps, hs, hr]

theorem runSteps_first_fail (exec : String → Int) (dir : String) :
    ∀ (pre : List Step) (s : Step) (suf : List Step),
      (∀ p ∈ pre, exec (substDir dir p.shell) = 0) →
      exec (substDir dir s.shell) ≠ 0 →
      runSteps exec dir (pre ++ s :: suf) =
        ((pre.map fun p => substDir dir p.shell) ++ [substDir dir s.shell],
         some (substDir dir s.shell)) := by
  intro pre
  induction pre with
  | nil => intro s suf _ hs; simp [runSteps, hs]
  | cons p ps ih =>
      intro s suf hpre hs
      have hp := hpre p (List.mem_cons_self _ _)
      have hr := ih s suf (fun q hq => hpre q (List.mem_cons_of_mem _ hq)) hs
      simp [runSteps, hp, hr]

theorem runChecks_all_ok (exec : String → Int) :
    ∀ checks : List Check, (∀ c ∈ checks, exec c.shell = 0) →
      runChecks exec checks = (checks.map Check.shell, true) := by
  intro checks
  induction checks with
  | nil => intro _; rfl
  | cons c rest ih =>
      intro h
      have hc := h c (List.mem_cons_self _ _)
      have hr := ih fun d hd => h d (List.mem_cons_of_mem _ hd)
      simp [runChecks, hc, hr]

theorem stepCmdsOf_verify_cons (d c : List Char) (tr : List Event) :
    stepCmdsOf (Event.verifyEvt d c :: tr) = stepCmdsOf tr := rfl

theorem valCmdsOf_verify_cons (d c : List Char) (tr : List Event) :
    valCmdsOf (Event.verifyEvt d c :: tr) = valCmdsOf tr := rfl

theorem stepCmdsOf_append (a b : List Event) :
    stepCmdsOf (a ++ b) = stepCmdsOf a ++ stepCmdsOf b := by
  induction a with
  | nil => rfl
  | cons e tr ih => cases e <;> simp [stepCmdsOf, ih]

theorem valCmdsOf_append (a b : List Event) :
    valCmdsOf (a ++ b) = valCmdsOf a ++ valCmdsOf b := by
  induction a with
  | nil => rfl
  | cons e tr ih => cases e <;> simp [valCmdsOf, ih]

theorem stepCmdsOf_map_stepRun (l : List String) :
    stepCmdsOf (l.map Event.stepRun) = l := by
  induction l with
  | nil => rfl
  | cons c cs ih => simp [stepCmdsOf, ih]

theorem stepCmdsOf_map_valRun (l : List String) :
    stepCmdsOf (l.map Event.valRun) = [] := by
  induction l with
  | nil => rfl
  | cons c cs ih => simp [stepCmdsOf, ih]

theorem valCmdsOf_map_stepRun (l : List String) :
    valCmdsOf (l.map Event.stepRun) = [] := by
  induction l with
  | nil => rfl
  | cons c cs ih => simp [valCmdsOf, ih]

theorem valCmdsOf_map_valRun (l : List String) :
    valCmdsOf (l.map Event.valRun) = l := by
  induction l with
  | nil => rfl
  | cons c cs ih => simp [valCmdsOf, ih]

theorem project_uses_go_eq_true_iff (pattern : String) :
    ∀ tree : List String,
      project_uses_go pattern tree = true ↔ ∃ n ∈ tree, containsSub pattern n = true := by
  intro tree
  induction tree with
  | nil => simp [project_uses_go]
  | cons n rest ih =>
      by_cases h : containsSub pattern n = true
      · simp [project_uses_go, h]
      · simp [project_uses_go, h, ih]

theorem examined_first_match (pattern : String) :
    ∀ (pre : List String) (n : String) (suf : List String),
      (∀ m ∈ pre, containsSub pattern m = false) →
      containsSub pattern n = true →
      project_uses_examined pattern (pre ++ n :: suf) = pre.length + 1 := by
  intro pre
  induction pre with
  | nil => intro n suf _ hn; simp [project_uses_examined, hn]
  | cons m ms ih =>
      intro n suf hpre hn
      have hm := hpre m (List.mem_cons_self _ _)
      have hr := ih n suf (fun q hq => hpre q (List.mem_cons_of_mem _ hq)) hn
      simp [project_uses_examined, hm, hr]
      omega

theorem mainLoop_trace_events (dirExists : String → Bool) (agentOf : String → AgentData) :
    ∀ (vulns : List TenableVulnerability) (libs : List String) (tr : List Event),
      ∀ e ∈ (mainLoop dirExists agentOf vulns libs tr).2, e ∈ tr ∨ isCommitEvt e = true := by
  intro vulns
  induction vulns with
  | nil => intro libs tr e he; exact Or.inl (by simpa [mainLoop] using he)
  | cons v rest ih =>
      intro libs tr e he
      by_cases hd : dirExists ("approved-packages/" ++ (v.pkg ++ "-" ++ v.version)) = true
      · rcases hm : mainLoop dirExists agentOf rest
            ((libs.filter fun n => !log4jGlob n) ++
              [(create_pr libs (v.pkg ++ "-" ++ v.version) v.cve).copiedFile])
            (tr ++ [Event.commitEvt (create_pr libs (v.pkg ++ "-" ++ v.version) v.cve).branch])
          with ⟨res, tr3⟩
        have he3 : e ∈ tr3 := by
          cases res with
          | error c => simpa [mainLoop, resolve, hd, hm] using he
          | ok outs => simpa [mainLoop, resolve, hd, hm] using he
        have := ih _ _ e (by rw [hm]; exact he3)
        rcases this with h | h
        · rcases List.mem_append.mp h with h2 | h2
          · exact Or.inl h2
          · right
            rcases List.mem_singleton.mp h2 with rfl
            rfl
        · exact Or.inr h
      · have hd2 : dirExists ("approved-packages/" ++ (v.pkg ++ "-" ++ v.version)) = false := by
          simpa using hd
        exact Or.inl (by simpa [mainLoop, resolve, hd2] using he)

/-! ### Claim C1 — error propagation at the Orchestrator boundary -/

/-- C1, counterexample.  With a trust store containing only
`log4j-2.17.0`, a run over two findings whose first fails package
resolution aborts immediately with exit code 2: no outcome is produced
for either finding and no event occurs, although the second finding alone
would have been remediated successfully (second conjunct).  This refutes
the claim that a per-finding error is converted into a `Failed(kind)`
outcome and that one finding's failure never aborts processing of
subsequent findings or the whole run. -/
theorem C1_counterexample :
    mainLoop (fun s => s == "approved-packages/log4j-2.17.0") (fun _ => ⟨some [], []⟩)
        [⟨"foo", "1.0", [], "CVE-A"⟩, ⟨"log4j", "2.17.0", [], "CVE-B"⟩] [] [] =
      (.error 2, [])
    ∧ mainLoop (fun s => s == "approved-packages/log4j-2.17.0") (fun _ => ⟨some [], []⟩)
        [⟨"log4j", "2.17.0", [], "CVE-B"⟩] [] [] =
      (.ok [⟨"CVE-B", [⟨"all", "10%", []⟩, ⟨"all", "30%", []⟩], "autopatch-cve-b"⟩],
       [.commitEvt "autopatch-cve-b"]) :=
  ⟨by decide, by decide⟩

/-- C1, amended: a package-resolution failure for a finding is caught in
`main`'s per-finding loop but converted into an immediate abort of the
whole run — `main` returns exit code 2, the failing finding gets no
`Failed` outcome, no further finding is processed, and no further event
occurs (the trace is left exactly as it was). -/
theorem C1_thm (dirExists : String → Bool) (agentOf : String → AgentData)
    (v : TenableVulnerability) (rest : List TenableVulnerability)
    (libs : List String) (tr : List Event)
    (h : dirExists ("approved-packages/" ++ (v.pkg ++ "-" ++ v.version)) = false) :
    mainLoop dirExists agentOf (v :: rest) libs tr = (.error 2, tr) := by
  simp [mainLoop, resolve, h]

/-- C1, witness: the amended theorem applied to a concrete unresolvable
finding. -/
theorem C1_witness :
    mainLoop (fun _ => false) (fun _ => ⟨some [], []⟩)
        [⟨"foo", "1.0", [], "CVE-A"⟩] [] [] = (.error 2, []) :=
  C1_thm _ _ _ _ _ _ (by decide)

/-! ### Claim C2 — integrity verification before execution and commits -/

/-- C2, counterexample.  In the orchestrated pipeline (`main.py`), a
finding that reaches repository mutation produces a `ChangeComposer`
commit while the run's whole event trace contains no integrity
verification event at all: the trace is exactly one commit, and a commit
event is not a verification event.  This refutes the claim that digest
verification runs strictly before any `ChangeComposer` commit in every
pipeline mode. -/
theorem C2_counterexample :
    (mainRun (fun _ => true) (fun _ => ⟨some [], []⟩) ["log4j-2.14.1.jar"]
        (.present [⟨some "log4j", some "2.17.0", some [], some "CVE-2021-44228"⟩])).2.2 =
      [Event.commitEvt "autopatch-cve-2021-44228"]
    ∧ List.countP isVerifyEvt [Event.commitEvt "autopatch-cve-2021-44228"] = 0 :=
  ⟨by decide, by decide⟩

/-- C2, amended: in the direct `apply_patch` pipeline the digest
comparison comes strictly first — on a mismatch the remediation aborts
with zero steps executed (first conjunct), and every non-empty
`apply_patch` trace starts with the single verification event, execution
events never preceding or interleaving with it (second conjunct); the
orchestrated `main.py` pipeline, by contrast, performs no integrity
verification anywhere (third conjunct). -/
theorem C2_thm :
    (∀ (exec : String → Int) (dir : String) (digest cs declared : List Char)
        (steps : List Step) (validate : List Check),
        checksumField cs = some declared → digest ≠ declared →
        apply_patch exec dir digest ⟨cs, steps, validate⟩ =
          ([Event.verifyEvt declared digest], Outcome.checksumMismatch))
    ∧ (∀ (exec : String → Int) (dir : String) (digest : List Char) (spec : AgentSpec),
        (apply_patch exec dir digest spec).1 = []
        ∨ ∃ d rest, (apply_patch exec dir digest spec).1 = Event.verifyEvt d digest :: rest
            ∧ ∀ e ∈ rest, isVerifyEvt e = false)
    ∧ (∀ (dirExists : String → Bool) (agentOf : String → AgentData)
        (vulns : List TenableVulnerability) (libs : List String) (tr : List Event),
        (∀ e ∈ tr, isVerifyEvt e = false) →
        ∀ e ∈ (mainLoop dirExists agentOf vulns libs tr).2, isVerifyEvt e = false) := by
  refine ⟨?_, ?_, ?_⟩
  · intro exec dir digest cs declared steps validate hcs hne
    simp [apply_patch, hcs, hne]
  · intro exec dir digest spec
    rcases hcs : checksumField spec.checksum with _ | d
    · exact Or.inl (by simp [apply_patch, hcs])
    · by_cases hne : digest = d
      · subst hne
        rcases hr : runSteps exec dir spec.steps with ⟨stepTr, failCmd⟩
        cases failCmd with
        | some cmd =>
            refine Or.inr ⟨digest, stepTr.map Event.stepRun, by simp [apply_patch, hcs, hr], ?_⟩
            intro e he
            rcases List.mem_map.mp he with ⟨c, _, rfl⟩
            rfl
        | none =>
            rcases hv : runChecks exec spec.validate with ⟨valTr, ok⟩
            refine Or.inr ⟨digest, stepTr.map Event.stepRun ++ valTr.map Event.valRun, ?_, ?_⟩
            · cases ok <;> simp [apply_patch, hcs, hr, hv]
            · intro e he
              rcases List.mem_append.mp he with h2 | h2
              · rcases List.mem_map.mp h2 with ⟨c, _, rfl⟩; rfl
              · rcases List.mem_map.mp h2 with ⟨c, _, rfl⟩; rfl
      · exact Or.inr ⟨d, [], by simp [apply_patch, hcs, hne], by simp⟩
  · intro dirExists agentOf vulns libs tr htr e he
    rcases mainLoop_trace_events dirExists agentOf vulns libs tr e he with h | h
    · exact htr e h
    · cases e with
      | verifyEvt d c => simp [isCommitEvt] at h
      | stepRun c => rfl
      | valRun c => rfl
      | commitEvt b => rfl

/-- C2, witness: the amended theorem's mismatch branch at a concrete
specification — the declared hex is `cafe`, the computed digest
`deadbeef`, and the remediation aborts after the comparison with zero
steps executed. -/
theorem C2_witness :
    apply_patch (fun _ => 0) "P" ("deadbeef".toList)
        ⟨"sha256:cafe".toList, [⟨"a", "cmd"⟩], [⟨"v"⟩]⟩ =
      ([Event.verifyEvt ("cafe".toList) ("deadbeef".toList)], Outcome.checksumMismatch) :=
  C2_thm.1 _ _ _ _ _ _ _ (by decide) (by decide)

/-! ### Claim C3 — step ordering and abort-on-first-failure -/

/-- C3 (confirmed): when the integrity check passes, every step before
the first failing one exits 0, and that step's command exits non-zero,
`apply_patch` executes exactly the substituted commands of the earlier
steps followed by the failing command, in declared order, and stops with
`StepFailedError` semantics: the steps after the failing one are not
executed and no validation command runs at all. -/
theorem C3_thm (exec : String → Int) (dir : String) (digest cs : List Char)
    (pre : List Step) (s : Step) (suf : List Step) (validate : List Check)
    (hcs : checksumField cs = some digest)
    (hpre : ∀ p ∈ pre, exec (substDir dir p.shell) = 0)
    (hs : exec (substDir dir s.shell) ≠ 0) :
    apply_patch exec dir digest ⟨cs, pre ++ s :: suf, validate⟩ =
      (Event.verifyEvt digest digest ::
         ((pre.map fun p => substDir dir p.shell) ++ [substDir dir s.shell]).map Event.stepRun,
       Outcome.stepFailed (substDir dir s.shell))
    ∧ stepCmdsOf (apply_patch exec dir digest ⟨cs, pre ++ s :: suf, validate⟩).1 =
        (pre.map fun p => substDir dir p.shell) ++ [substDir dir s.shell]
    ∧ valCmdsOf (apply_patch exec dir digest ⟨cs, pre ++ s :: suf, validate⟩).1 = [] := by
  have hrun := runSteps_first_fail exec dir pre s suf hpre hs
  have hmain : apply_patch exec dir digest ⟨cs, pre ++ s :: suf, validate⟩ =
      (Event.verifyEvt digest digest ::
         ((pre.map fun p => substDir dir p.shell) ++ [substDir dir s.shell]).map Event.stepRun,
       Outcome.stepFailed (substDir dir s.shell)) := by
    simp [apply_patch, hcs, hrun]
  refine ⟨hmain, ?_, ?_⟩
  · rw [hmain]
    rw [stepCmdsOf_verify_cons, stepCmdsOf_map_stepRun]
  · rw [hmain]
    rw [valCmdsOf_verify_cons, valCmdsOf_map_stepRun]

/-- C3, witness: the theorem applied to a concrete specification whose
second step's command exits 1 — the executed commands are the first two,
the third step and the validation never run. -/
theorem C3_witness :
    apply_patch (fun c => if c = "boom" then (1 : Int) else 0) "P" ("d1".toList)
        ⟨"sha256:d1".toList, [⟨"a", "ok1"⟩] ++ ⟨"b", "boom"⟩ :: [⟨"c", "later"⟩], [⟨"vcheck"⟩]⟩ =
      ([Event.verifyEvt ("d1".toList) ("d1".toList), Event.stepRun "ok1", Event.stepRun "boom"],
       Outcome.stepFailed "boom") :=
  ((C3_thm _ _ _ _ _ _ _ _ (by decide) (by decide) (by decide)).1).trans (by decide)

/-! ### Claim C4 — RolloutPlanner phases and task lists -/

/-- Content equality of a planner task and a specification step: same
name, same command. -/
def taskMatchesStep (t : Task) (s : Step) : Prop :=
  t.name = s.name ∧ t.shell = s.shell

theorem forall2_planTasks (l : List Step) :
    List.Forall₂ taskMatchesStep (l.map fun s => (⟨s.name, s.shell⟩ : Task)) l := by
  induction l with
  | nil => constructor
  | cons s rest ih => exact List.Forall₂.cons ⟨rfl, rfl⟩ ih

/-- C4 (confirmed): for every specification — including one with an empty
(or absent) steps list — `build_plan` returns exactly a canary phase with
the fixed `10%` host fraction and a batch phase with the fixed `30%` host
fraction; both phases carry the same task list, element-wise equal in
content (name and command) to the specification's steps; an empty steps
list yields empty task lists, not an error; and the plan never depends on
the specification's validations (the `validate` field is not consulted,
as the equation of the first conjunct shows). -/
theorem C4_thm (data : AgentData) :
    build_plan data = [⟨"all", "10%", planTasks data⟩, ⟨"all", "30%", planTasks data⟩]
    ∧ List.Forall₂ taskMatchesStep (planTasks data) (data.steps?.getD [])
    ∧ (data.steps?.getD [] = [] → planTasks data = []) := by
  refine ⟨rfl, forall2_planTasks _, ?_⟩
  intro h
  simp [planTasks, h]

/-- C4, witness: the empty-steps case at a concrete specification — the
plan is two phases with the fixed fractions and empty task lists. -/
theorem C4_witness :
    planTasks ⟨some [], [⟨"echo done"⟩]⟩ = [] :=
  (C4_thm ⟨some [], [⟨"echo done"⟩]⟩).2.2 rfl

/-! ### Claim C5 — UsageDetector scan semantics -/

/-- C5 (confirmed): `project_uses` returns `true` iff some entry name
under the project tree contains the substring `"{package}-{version}"`;
it returns `false` on an empty tree; and it short-circuits — when every
name before position `k` fails to match and the name at `k` matches, the
scan loop examines exactly `k + 1` entries, never requiring an exhaustive
scan. -/
theorem C5_thm (pkg ver : String) (tree : List String) :
    (project_uses pkg ver tree = true ↔
      ∃ n ∈ tree, (pkg ++ "-" ++ ver).toList <:+: n.toList)
    ∧ project_uses pkg ver [] = false
    ∧ ∀ (pre : List String) (n : String) (suf : List String),
        (∀ m ∈ pre, ¬(pkg ++ "-" ++ ver).toList <:+: m.toList) →
        (pkg ++ "-" ++ ver).toList <:+: n.toList →
        project_uses_examined (pkg ++ "-" ++ ver) (pre ++ n :: suf) = pre.length + 1 := by
  refine ⟨?_, rfl, ?_⟩
  · rw [project_uses, project_uses_go_eq_true_iff]
    simp [containsSub]
  · intro pre n suf hpre hn
    refine examined_first_match _ pre n suf ?_ ?_
    · intro m hm
      simpa [containsSub] using hpre m hm
    · simpa [containsSub] using hn

/-- C5, witness: in a tree whose first entry does not match, the scan
finds `log4j-2.14.1.jar` at position 1 and examines exactly 2 entries. -/
theorem C5_witness :
    project_uses_examined ("log4j" ++ "-" ++ "2.14.1")
        (["app.txt"] ++ "log4j-2.14.1.jar" :: ["zzz.txt"]) = ["app.txt"].length + 1 :=
  (C5_thm "log4j" "2.14.1" (["app.txt"] ++ "log4j-2.14.1.jar" :: ["zzz.txt"])).2.2
    ["app.txt"] "log4j-2.14.1.jar" ["zzz.txt"] (by decide) (by decide)

/-! ### Claim C6 — ChangeComposer branch, removal glob, commit -/

/-- Modelled from the spec: the artifact-removal behaviour the spec
ascribes to ChangeComposer — "locates existing artifacts in the project's
library directory matching a target-package naming glob" — i.e. the files
matching `"{package}*.jar"` for the finding's target package.  Kept for
refinement comparison with `create_pr`, whose glob is hard-coded. -/
def spec_removed (pkgName : String) (libsFiles : List String) : List String :=
  libsFiles.filter fun n => strPrefixOf pkgName n && strSuffixOf ".jar" n

/-- C6, counterexample.  For a target package other than log4j the
removal glob of `create_pr` is not derived from the target package: with
library directory `["jackson-2.12.0.jar"]` and target package `jackson`,
`create_pr` removes nothing (its glob is the fixed `'log4j*.jar'`),
while a glob derived from the target package would remove the vulnerable
`jackson-2.12.0.jar`. -/
theorem C6_counterexample :
    (create_pr ["jackson-2.12.0.jar"] "jackson-2.13.0" "CVE-2022-1471").removed = []
    ∧ spec_removed "jackson" ["jackson-2.12.0.jar"] = ["jackson-2.12.0.jar"]
    ∧ ([] : List String) ≠ ["jackson-2.12.0.jar"] :=
  ⟨by decide, by decide, by decide⟩

/-- C6, amended: `create_pr` creates and switches to the branch
`"autopatch-{identifier-lowercased}"` and returns that name, copies in
the replacement artifact `"{approved-dir-name}.jar"`, and records a
single commit whose message embeds the identifier; however the artifacts
it removes from the library directory are those matching the fixed glob
`'log4j*.jar'` — every removed name starts with `log4j` and ends with
`.jar` whatever the target package is; the glob is not derived from the
target package. -/
theorem C6_thm (libs : List String) (dirName cve : String) :
    (create_pr libs dirName cve).branch = "autopatch-" ++ pyLower cve
    ∧ (create_pr libs dirName cve).removed = libs.filter log4jGlob
    ∧ (∀ n ∈ (create_pr libs dirName cve).removed,
        strPrefixOf "log4j" n = true ∧ strSuffixOf ".jar" n = true)
    ∧ (create_pr libs dirName cve).copiedFile = dirName ++ ".jar"
    ∧ cve.toList <:+: (create_pr libs dirName cve).commitMsg.toList := by
  refine ⟨rfl, rfl, ?_, rfl, ?_⟩
  · intro n hn
    have hn2 : n ∈ libs.filter log4jGlob := hn
    have hg : log4jGlob n = true := (List.mem_filter.mp hn2).2
    simp only [log4jGlob, Bool.and_eq_true] at hg
    exact ⟨hg.1.1, hg.1.2⟩
  · have hsplit : ("AUTO-PATCH: " ++ cve).toList = "AUTO-PATCH: ".toList ++ cve.toList := rfl
    have hsuffix : cve.toList <:+ ("AUTO-PATCH: " ++ cve).toList := by
      rw [hsplit]; exact List.suffix_append _ _
    exact hsuffix.isInfix

/-- C6, witness: the amended theorem at the spec's end-to-end scenario A —
identifier `CVE-2021-44228` yields branch `autopatch-cve-2021-44228`. -/
theorem C6_witness :
    (create_pr ["log4j-2.14.1.jar"] "log4j-2.17.0" "CVE-2021-44228").branch =
      "autopatch-cve-2021-44228" :=
  ((C6_thm ["log4j-2.14.1.jar"] "log4j-2.17.0" "CVE-2021-44228").1).trans (by decide)

/-! ### Claim C7 — ReportParser output size and field non-emptiness -/

/-- C7, counterexample.  A well-formed report record whose `pkg` field is
the empty string passes pydantic validation unchanged: the parser's
output contains a record with an empty `package`, refuting the claim that
every output record's fields are non-empty strings. -/
theorem C7_counterexample :
    parse_tenable [⟨some "", some "1.0", some [], some "CVE-1"⟩] =
      .ok [⟨"", "1.0", [], "CVE-1"⟩]
    ∧ ("" : String).length = 0 :=
  ⟨by decide, rfl⟩

theorem validateItem_fields (i : RawItem) (v : TenableVulnerability)
    (h : validateItem i = .ok v) :
    i.pkg = some v.pkg ∧ i.version = some v.version
      ∧ i.hosts = some v.hosts ∧ i.cve = some v.cve := by
  rcases i with ⟨p, ver, hs, c⟩
  cases p with
  | none => simp [validateItem] at h
  | some a =>
    cases ver with
    | none => simp [validateItem] at h
    | some b =>
      cases hs with
      | none => simp [validateItem] at h
      | some hl =>
        cases c with
        | none => simp [validateItem] at h
        | some d =>
            have h2 : Except.ok (⟨a, b, hl, d⟩ : TenableVulnerability) =
                (.ok v : Except ParseError TenableVulnerability) := h
            injection h2 with h3
            subst h3
            exact ⟨rfl, rfl, rfl, rfl⟩

/-- C7, amended: for every well-formed report (one whose records all pass
field validation), the parser's output length is at most (indeed equal
to) the input record count, and every output record's fields are exactly
the input record's string values, carried over verbatim — they may be
empty, since no non-emptiness validation is performed. -/
theorem C7_thm :
    ∀ (items : List RawItem) (out : List TenableVulnerability),
      parse_tenable items = .ok out →
      out.length ≤ items.length
      ∧ ∀ r ∈ out, ∃ i ∈ items,
          i.pkg = some r.pkg ∧ i.version = some r.version
            ∧ i.hosts = some r.hosts ∧ i.cve = some r.cve := by
  intro items
  induction items with
  | nil =>
      intro out h
      simp only [parse_tenable] at h
      injection h with h2
      subst h2
      exact ⟨Nat.le_refl _, by simp⟩
  | cons i is ih =>
      intro out h
      rcases hv : validateItem i with e | v <;>
        rcases hp : parse_tenable is with e2 | vs <;>
          rw [parse_tenable, hv, hp] at h <;> simp at h
      subst h
      obtain ⟨hlen, hmem⟩ := ih vs hp
      refine ⟨Nat.succ_le_succ hlen, ?_⟩
      intro r hr
      rcases List.mem_cons.mp hr with rfl | hr2
      · exact ⟨i, List.mem_cons_self _ _, validateItem_fields i r hv⟩
      · obtain ⟨j, hj, hfields⟩ := hmem r hr2
        exact ⟨j, List.mem_cons_of_mem _ hj, hfields⟩

/-- C7, witness: the amended theorem at a one-record report. -/
theorem C7_witness :
    ([(⟨"log4j", "2.14.1", ["h1"], "CVE-2021-44228"⟩ : TenableVulnerability)]).length ≤
      ([(⟨some "log4j", some "2.14.1", some ["h1"], some "CVE-2021-44228"⟩ : RawItem)]).length :=
  (C7_thm _ _ (by decide)).1

/-! ### Claim C8 — malformed reports vs empty reports -/

/-- C8, counterexample.  First conjunct: `parse_tenable` raises
(pydantic `ValidationError`) on a record missing its `cve` field even
though the top-level structure is the expected shape — a readable report
whose records are objects — refuting "fails exactly when the top-level
structure is not the expected shape or the file cannot be read".  Second
and third conjuncts: the Orchestrator of `main.py` ends the process with
exit code 2 for a report with zero records exactly as it does for an
unreadable report file, so the empty outcome is precisely as fatal to the
process as a parse failure, refuting the claim's final part. -/
theorem C8_counterexample :
    parse_tenable [⟨some "log4j", some "2.14.1", some ["h1"], none⟩] =
      .error .validationError
    ∧ (mainRun (fun _ => true) (fun _ => ⟨some [], []⟩) [] (.present [])).1 = .exitCode 2
    ∧ (mainRun (fun _ => true) (fun _ => ⟨some [], []⟩) [] .missing).1 = .exitCode 2 :=
  ⟨by decide, by decide, by decide⟩

/-- C8, amended: `parse_tenable` raises when the report file cannot be
read and also whenever a record fails field validation; a report with
zero records yields an empty sequence, not an error (first and second
conjuncts; likewise `parse_report` of the direct pipeline returns the
empty list, not an error, when no record passes the critical-severity
filter); the Orchestrator of `main.py` reports `"No vulnerabilities
found"` for the empty outcome, but exits with the same code 2 as for an
unreadable report file — the two cases are distinguished only by the
printed message, not by fatality. -/
theorem C8_thm (dirExists : String → Bool) (agentOf : String → AgentData)
    (libs : List String) :
    (∀ data : List ReportItem,
      (∀ i ∈ data, i.severity ≠ some "critical") → parse_report data = [])
    ∧ parse_tenable [] = .ok []
    ∧ mainRun dirExists agentOf libs (.present []) =
        (.exitCode 2, ["No vulnerabilities found"], [])
    ∧ mainRun dirExists agentOf libs .missing =
        (.exitCode 2, ["Tenable file not found"], [])
    ∧ ("No vulnerabilities found" : String) ≠ "Tenable file not found" := by
  refine ⟨?_, rfl, rfl, rfl, by decide⟩
  intro data h
  rw [parse_report, List.filter_eq_nil_iff]
  intro i hi
  simpa using h i hi

/-- C8, witness: the amended theorem's filter clause at a concrete
low-severity report — `parse_report` returns the empty list. -/
theorem C8_witness :
    parse_report [⟨some "low", "log4j", "2.14.1", "2.17.0"⟩] = [] :=
  (C8_thm (fun _ => true) (fun _ => ⟨none, []⟩) []).1
    [⟨some "low", "log4j", "2.14.1", "2.17.0"⟩] (by decide)

/-! ### Claim C9 — placeholder substitution in executed commands -/

/-- C9, counterexample.  A validation command containing the directory
placeholder is executed verbatim: the executed validation command still
contains `"{{ playbook_dir }}"` (first conjunct), although substituting
the resolved package directory — which the claim asserts happens to every
executed command — would have produced a different command (second and
third conjuncts). -/
theorem C9_counterexample :
    valCmdsOf (apply_patch (fun _ => 0) "/repo/approved-packages/log4j-2.17.0" ("d1".toList)
        ⟨"sha256:d1".toList, [], [⟨"ls \x7b\x7b playbook_dir \x7d\x7d"⟩]⟩).1 =
      ["ls \x7b\x7b playbook_dir \x7d\x7d"]
    ∧ substDir "/repo/approved-packages/log4j-2.17.0" "ls \x7b\x7b playbook_dir \x7d\x7d" =
        "ls /repo/approved-packages/log4j-2.17.0"
    ∧ ("ls \x7b\x7b playbook_dir \x7d\x7d" : String) ≠
        "ls /repo/approved-packages/log4j-2.17.0" :=
  ⟨by decide, by decide, by decide⟩

/-- C9, amended: on a successful remediation, the directory placeholder
is substituted with the resolved package directory in every remediation
step command before execution, while every validation command is executed
verbatim — the executed validation commands are exactly the
specification's `validate` entries with no substitution applied. -/
theorem C9_thm (exec : String → Int) (dir : String) (digest cs : List Char)
    (steps : List Step) (validate : List Check)
    (hcs : checksumField cs = some digest)
    (hsteps : ∀ p ∈ steps, exec (substDir dir p.shell) = 0)
    (hvals : ∀ c ∈ validate, exec c.shell = 0) :
    apply_patch exec dir digest ⟨cs, steps, validate⟩ =
      (Event.verifyEvt digest digest ::
         ((steps.map fun p => substDir dir p.shell).map Event.stepRun ++
           (validate.map Check.shell).map Event.valRun),
       Outcome.okDone)
    ∧ stepCmdsOf (apply_patch exec dir digest ⟨cs, steps, validate⟩).1 =
        steps.map (fun p => substDir dir p.shell)
    ∧ valCmdsOf (apply_patch exec dir digest ⟨cs, steps, validate⟩).1 =
        validate.map Check.shell := by
  have hsrun := runSteps_all_ok exec dir steps hsteps
  have hcrun := runChecks_all_ok exec validate hvals
  have hmain : apply_patch exec dir digest ⟨cs, steps, validate⟩ =
      (Event.verifyEvt digest digest ::
         ((steps.map fun p => substDir dir p.shell).map Event.stepRun ++
           (validate.map Check.shell).map Event.valRun),
       Outcome.okDone) := by
    simp [apply_patch, hcs, hsrun, hcrun]
  refine ⟨hmain, ?_, ?_⟩
  · rw [hmain, stepCmdsOf_verify_cons, stepCmdsOf_append,
        stepCmdsOf_map_stepRun, stepCmdsOf_map_valRun, List.append_nil]
  · rw [hmain, valCmdsOf_verify_cons, valCmdsOf_append,
        valCmdsOf_map_stepRun, valCmdsOf_map_valRun, List.nil_append]

/-- C9, witness: the amended theorem at a one-step, one-validation
specification. -/
theorem C9_witness :
    apply_patch (fun _ => 0) "P" ("d1".toList)
        ⟨"sha256:d1".toList, [⟨"s", "echo hi"⟩], [⟨"test 1"⟩]⟩ =
      ([Event.verifyEvt ("d1".toList) ("d1".toList),
        Event.stepRun "echo hi", Event.valRun "test 1"], Outcome.okDone) :=
  ((C9_thm _ _ _ _ _ _ (by decide) (by decide) (by decide)).1).trans (by decide)

/-! ### Claim C10 — checksum prefix handling -/

/-- C10, counterexample.  For the declared checksum string `"a:b:c"` the
code compares the second colon-split field `"b"`, not the substring after
the first `':'` (`"b:c"`): the claim's description of which substring is
compared is wrong for declared strings with more than one `':'`. -/
theorem C10_counterexample :
    checksumField ("a:b:c".toList) = some ("b".toList)
    ∧ "b".toList ≠ "b:c".toList :=
  ⟨by decide, by decide⟩

/-- C10, amended: integrity verification never validates the
algorithm-name prefix — for a declared string with no `':'` the lookup
fails like the uncaught `IndexError` (first conjunct); for a declared
string `algo ++ ":" ++ rest` the compared value is the field between the
first and the second `':'` (the whole remainder when there is only one
`':'`) (second conjunct); consequently any prefix, e.g. `"md5:"`,
followed by the correct sha256 hex digest passes verification and the
remediation proceeds (third conjunct). -/
theorem C10_thm :
    (∀ s : List Char, (':' : Char) ∉ s → checksumField s = none)
    ∧ (∀ algo rest : List Char, (':' : Char) ∉ algo →
        checksumField (algo ++ ':' :: rest) = some (firstField ':' rest))
    ∧ (∀ (exec : String → Int) (dir : String) (digest : List Char),
        (':' : Char) ∉ digest →
        apply_patch exec dir digest ⟨"md5:".toList ++ digest, [], []⟩ =
          ([Event.verifyEvt digest digest], Outcome.okDone)) := by
  refine ⟨checksumField_no_colon, checksumField_split, ?_⟩
  intro exec dir digest h
  have h1 : checksumField ('m' :: 'd' :: '5' :: ':' :: digest) = some (firstField ':' digest) :=
    checksumField_split ['m', 'd', '5'] digest (by decide)
  rw [firstField_of_not_mem ':' digest h] at h1
  simp [apply_patch, h1, runSteps, runChecks]

/-- C10, witness: the amended theorem at concrete inputs — a declared
checksum without `':'` yields the index-error lookup failure, and an
`"md5:"`-prefixed declared checksum with the correct sha256 hex is
accepted. -/
theorem C10_witness :
    checksumField ("deadbeef".toList) = none
    ∧ apply_patch (fun _ => 0) "P" ("cafe".toList)
        ⟨"md5:".toList ++ "cafe".toList, [], []⟩ =
      ([Event.verifyEvt ("cafe".toList) ("cafe".toList)], Outcome.okDone) :=
  ⟨C10_thm.1 ("deadbeef".toList) (by decide),
   C10_thm.2.2 (fun _ => 0) "P" ("cafe".toList) (by decide)⟩

end Foundry
